import Mathlib

/-!
Verification development for `tzfeedreader.py`, a single-file podcast/feed
downloader.  The Python source is shallowly embedded below: pure string
manipulation becomes functions on `List Char` / `String`, the sqlite-backed
history table becomes a list of records in insertion (rowid) order, the
filesystem becomes a list of existing file paths, the network becomes a
deterministic success oracle, and the per-item pipeline of `Feed.get_all`
becomes a fold of a step function over the (reversed) entry list.
-/

namespace TzFeedReader

/-- Python 2 byte-string regex class `\s`, i.e. the characters
` `, `\t`, `\n`, `\r`, `\x0b` (vertical tab), `\x0c` (form feed).
Used by `sanitize_filename`'s two `re.sub` calls and `.strip()`. -/
def isPySpace (c : Char) : Bool :=
  c == ' ' || c == '\t' || c == '\n' || c == '\r' || c == '\x0b' || c == '\x0c'

/-- Python 2 byte-string regex class `\w` = `[a-zA-Z0-9_]`
(no `re.UNICODE` flag is in effect at the call sites). -/
def isPyWord (c : Char) : Bool :=
  c.isAlphanum || c == '_'

/-- Drops the trailing run of Python whitespace from a character list;
together with `List.dropWhile isPySpace` this embeds Python's `.strip()`. -/
def dropTrailingWs : List Char → List Char
  | [] => []
  | c :: rest =>
    let r := dropTrailingWs rest
    if r.isEmpty && isPySpace c then [] else c :: r

/-- Embeds Python's `bytes.strip()` (strip leading and trailing whitespace). -/
def stripWs (l : List Char) : List Char :=
  dropTrailingWs (l.dropWhile isPySpace)

/-- Embeds `re.sub('[\s]+', ' ', value)`: every maximal run of whitespace
characters is replaced by a single ASCII space.  When two adjacent
characters are both whitespace the first is dropped (the run collapses to
its last character, which is then rendered as `' '`). -/
def collapseWs : List Char → List Char
  | [] => []
  | [c] => [if isPySpace c then ' ' else c]
  | a :: b :: rest =>
    if isPySpace a && isPySpace b then collapseWs (b :: rest)
    else (if isPySpace a then ' ' else a) :: collapseWs (b :: rest)

/-- Embeds `sanitize_filename(value)`:

```
value = unicodedata.normalize('NFKD', value).encode('ascii', 'ignore')
value = unicode(re.sub('[^\w\s-]', '', value).strip())
value = unicode(re.sub('[\s]+', ' ', value))
```

`nfkd` stands for the external library call
`unicodedata.normalize('NFKD', ·)` and is kept abstract (the development's
theorems hold for every normalization function); `.encode('ascii',
'ignore')` keeps exactly the code points below 128. -/
def sanitize_filename (nfkd : List Char → List Char) (value : String) : String :=
  let ascii := (nfkd value.data).filter (fun c => c.toNat ≤ 127)
  let kept := ascii.filter (fun c => isPyWord c || isPySpace c || c == '-')
  String.mk (collapseWs (stripWs kept))

/-- Boolean "no two adjacent whitespace characters" predicate, used to state
that sanitized titles contain only single spaces. -/
def noTwoSpaces : List Char → Bool
  | [] => true
  | [_] => true
  | a :: b :: rest => !(isPySpace a && isPySpace b) && noTwoSpaces (b :: rest)

/-! ## History store (sqlite table `history`, in rowid order) -/

/-- One row of the `history` table created by `HISTORY_SCHEMA`
(`date DATETIME, feed TEXT, url TEXT, title TEXT`).  Timestamps are
abstracted to `Nat`. -/
structure HistRecord where
  date : Nat
  feed : String
  url : String
  title : String
  deriving DecidableEq, Repr

/-- The whole table, in insertion (rowid) order. -/
abbrev HistTable := List HistRecord

/-- Embeds `History.store(feed, url, title)`: `INSERT INTO history ...`
appends one row with the current time to the table. -/
def History.store (h : HistTable) (now : Nat) (feed url title : String) : HistTable :=
  h ++ [⟨now, feed, url, title⟩]

/-- Embeds `History.get(feed, title)`:
`SELECT date FROM history WHERE feed = ? AND title = ?` followed by
`fetchone()`.  The query has no `ORDER BY`, so sqlite's full table scan
returns rows in rowid (insertion) order and `fetchone()` yields the first
matching row; `none` models the `False` returned when no row matches. -/
def History.get : HistTable → String → String → Option Nat
  | [], _, _ => none
  | r :: rest, feed, title =>
    if r.feed = feed ∧ r.title = title then some r.date
    else History.get rest feed title

/-! ## History store construction (`History.__init__`) -/

def DEFAULT_HISTORY_FILE : String := "~/.tzfeedreader.db"

/-- Embeds `os.path.expanduser` for the paths used here: a leading `~/` is
replaced by the home directory. -/
def expanduser (home p : String) : String :=
  if p.data.take 2 = ['~', '/'] then home ++ String.mk (p.data.drop 1) else p

/-- Embeds the path computation of `History.__init__(self, file_path)`:

```
file_name = os.path.expanduser(DEFAULT_HISTORY_FILE)
self.connection = sqlite3.connect(file_name)
```

The returned string is the sqlite file actually opened.  Note the source
computes `file_name` from the constant `DEFAULT_HISTORY_FILE`, leaving the
`file_path` parameter unused. -/
def History.openedPath (home : String) (file_path : String) : String :=
  expanduser home DEFAULT_HISTORY_FILE

/-! ## Requests and auth configuration (`Feed.__init__`, class attribute
`request_args`) -/

/-- The `auth` keyword of `Feed.__init__`, which the code inspects with
`isinstance`: absent (`None`), a basic-credentials string, or a mapping of
query parameters. -/
inductive AuthConfig
  | noAuth
  | str (s : String)
  | dict (params : List (String × String))
  deriving DecidableEq, Repr

/-- The keyword arguments splatted into every `requests.get` call
(`**self.request_args`).  In the source this is a single class-level
dictionary shared by all `Feed` instances; here it is threaded explicitly
as state. -/
structure RequestArgs where
  auth : Option (List String)
  params : Option (List (String × String))
  deriving DecidableEq, Repr

/-- Embeds Python 2 `s.split(sep)` (with explicit separator) on character
lists, via a fuel parameter that makes the recursion structural; the fuel
is always sufficient because every step consumes at least one character.
(The `sep = ""` case, which Python rejects with `ValueError`, is modelled
as "no occurrence".) -/
def pySplitGo (sep : List Char) : Nat → List Char → List Char → List (List Char)
  | _, [], acc => [acc.reverse]
  | 0, s, acc => [acc.reverse ++ s]
  | fuel + 1, c :: rest, acc =>
    if sep.isPrefixOf (c :: rest) && !sep.isEmpty then
      acc.reverse :: pySplitGo sep fuel (List.drop sep.length (c :: rest)) []
    else
      pySplitGo sep fuel rest (c :: acc)

/-- Embeds Python 2 `s.split(sep)`: `pySplit s sep` splits the receiver `s`
at every occurrence of the separator `sep`. -/
def pySplit (s sep : String) : List String :=
  (pySplitGo sep.data s.data.length s.data []).map String.mk

/-- Embeds the mutation of the shared `request_args` dictionary performed by
`Feed.__init__`:

```
if isinstance(auth, str):
    self.request_args["auth"] = ":".split(auth)
elif isinstance(auth, dict):
    self.request_args["params"] = auth
```

Note the source calls `split` on the literal `":"` with the configured
string as separator (`":".split(auth)`), not `auth.split(":")`. -/
def updateRequestArgs (args : RequestArgs) (auth : AuthConfig) : RequestArgs :=
  match auth with
  | AuthConfig.noAuth => args
  | AuthConfig.str a => { args with auth := some (pySplit ":" a) }
  | AuthConfig.dict d => { args with params := some d }

/-- `HEADERS = {"User-agent": "TzFeedReader"}`. -/
def HEADERS : List (String × String) := [("User-agent", "TzFeedReader")]

/-- An outgoing HTTP GET as issued by `Feed.get_index` and
`Feed.download_item`: `requests.get(url, headers=HEADERS,
**self.request_args)` (the `stream=True` flag of `download_item` has no
bearing on what the request carries and is not modelled). -/
structure Request where
  url : String
  headers : List (String × String)
  auth : Option (List String)
  params : Option (List (String × String))
  deriving DecidableEq, Repr

/-- Builds the request issued for `url` under the current shared
`request_args`. -/
def mkRequest (url : String) (args : RequestArgs) : Request :=
  { url := url, headers := HEADERS, auth := args.auth, params := args.params }

/-! ## Feed entries and the per-item pipeline (`Feed.get_all`) -/

/-- A parsed feed link (`link.rel`, `link.href`, `link.type`). -/
structure Link where
  rel : String
  href : String
  type : String
  deriving DecidableEq, Repr

/-- A parsed feed entry (`item.title`, `item.links`), as produced by
`feedparser.parse(...).entries`. -/
structure Entry where
  title : String
  links : List Link
  deriving DecidableEq, Repr

/-- Embeds the link-selection loop of `Feed.get_all`:

```
for link in item.links:
    if link.rel == "enclosure" and link.href:
        item_link = link
        break
else:
    ...skip...
```

returning the first link whose relation is `"enclosure"` and whose href is
non-empty (`link.href` truthy), or `none` when the loop falls through. -/
def findEnclosure : List Link → Option Link
  | [] => none
  | l :: rest =>
    if l.rel = "enclosure" ∧ l.href ≠ "" then some l else findEnclosure rest

/-- Embeds `os.path.join(a, b)` (POSIX, two arguments): an absolute second
component replaces the first, otherwise the components are joined with a
single `/`. -/
def pathJoin (a b : String) : String :=
  if b.data.take 1 = ['/'] then b
  else if a.data = [] then b
  else if a.data.getLast? = some '/' then a ++ b
  else a ++ "/" ++ b

/-- The warnings `Feed.get_all` emits through `logger.warning`.  The
download-failure message interpolates the exception text (`e.message`),
which has no counterpart in the embedding and is left out. -/
inductive LogWarning
  | noValidUrls (cleanTitle : String)
  | downloadFailed
  deriving DecidableEq, Repr

/-- The mutable world one run of `Feed.get_all` interacts with:
the history table, the set of existing output files, the per-feed
`self.downloads` counter, the sanitized titles yielded to the run loop,
the warnings logged, and the URLs for which an HTTP GET was issued by
`Feed.download_item` (successful or not). -/
structure RunState where
  history : HistTable
  fs : List String
  downloads : Nat
  yielded : List String
  warnings : List LogWarning
  attempts : List String
  deriving DecidableEq, Repr

/-- The per-feed configuration of a constructed `Feed`, plus the two
external effect functions the pipeline calls: `nfkd` (the normalization
used by `sanitize_filename`) and `downloadOk` (whether the streaming GET
of `Feed.download_item` for a given URL runs to completion; the
environment is deterministic, as fits a claim about re-running against an
unchanged feed). -/
structure FeedCfg where
  name : String
  output : String
  whitelist : List (String → Bool)
  nfkd : List Char → List Char
  downloadOk : String → Bool

/-- The output path derived for an entry and its selected enclosure link:
`file_type = item_link.type.split("/")[-1]`,
`file_name = "{}.{}".format(clean_title, file_type)`,
`file_path = os.path.join(self.output, file_name)`. -/
def itemFilePath (cfg : FeedCfg) (item : Entry) (item_link : Link) : String :=
  let clean_title := sanitize_filename cfg.nfkd item.title
  let file_type := (pySplit item_link.type "/").getLastD ""
  pathJoin cfg.output (clean_title ++ "." ++ file_type)

/-- What the body of `Feed.get_all`'s loop decides to do with one entry. -/
inductive Decision
  | skipWhitelist
  | skipHistory
  | skipNoUrl (cleanTitle : String)
  | skipExists (filePath : String)
  | download (item_link : Link) (filePath : String) (cleanTitle : String)
  | failed (item_link : Link) (filePath : String) (cleanTitle : String)
  deriving DecidableEq, Repr

/-- Embeds the control flow of one iteration of `Feed.get_all`'s loop, in
source order: whitelist gate (`if self.whitelist: if not any([p.match(
item.title) for p in self.whitelist]): continue`), history lookup on the
raw title, enclosure selection, output-path existence check, then the
download attempt whose outcome `cfg.downloadOk` determines. -/
def decideItem (cfg : FeedCfg) (st : RunState) (item : Entry) : Decision :=
  if !cfg.whitelist.isEmpty && !(cfg.whitelist.any fun p => p item.title) then
    Decision.skipWhitelist
  else if (History.get st.history cfg.name item.title).isSome then
    Decision.skipHistory
  else
    match findEnclosure item.links with
    | none => Decision.skipNoUrl (sanitize_filename cfg.nfkd item.title)
    | some item_link =>
      if st.fs.contains (itemFilePath cfg item item_link) then
        Decision.skipExists (itemFilePath cfg item item_link)
      else if cfg.downloadOk item_link.href then
        Decision.download item_link (itemFilePath cfg item item_link)
          (sanitize_filename cfg.nfkd item.title)
      else
        Decision.failed item_link (itemFilePath cfg item item_link)
          (sanitize_filename cfg.nfkd item.title)

/-- Applies a `Decision`'s effects, following the source: a successful
`download_item` issues the GET, writes the file, increments
`self.downloads`, the generator yields `clean_title`, and afterwards
`self.history.store(self.name, link.href, item.title)` records the raw
title; a failed `download_item` has issued its GET, logs a warning and
falls through to the next entry with no history record; every skip path
leaves the world unchanged except the `no valid urls` warning. -/
def applyDecision (cfg : FeedCfg) (now : Nat) (item : Entry) (st : RunState) :
    Decision → RunState
  | Decision.skipWhitelist => st
  | Decision.skipHistory => st
  | Decision.skipNoUrl ct =>
    { st with warnings := st.warnings ++ [LogWarning.noValidUrls ct] }
  | Decision.skipExists _ => st
  | Decision.download l fp ct =>
    { st with
      attempts := st.attempts ++ [l.href],
      fs := fp :: st.fs,
      downloads := st.downloads + 1,
      yielded := st.yielded ++ [ct],
      history := History.store st.history now cfg.name l.href item.title }
  | Decision.failed l _ _ =>
    { st with
      attempts := st.attempts ++ [l.href],
      warnings := st.warnings ++ [LogWarning.downloadFailed] }

/-- One iteration of `Feed.get_all`'s loop on one entry. -/
def processItem (cfg : FeedCfg) (now : Nat) (st : RunState) (item : Entry) :
    RunState :=
  applyDecision cfg now item st (decideItem cfg st item)

/-- Embeds one full (fully consumed) run of `Feed.get_all`: the entry list
is processed in reverse (`for item in reversed(self.items)`, oldest
first), threading the run state through each iteration. -/
def get_all (cfg : FeedCfg) (now : Nat) (items : List Entry) (st : RunState) :
    RunState :=
  items.reverse.foldl (processItem cfg now) st

/-- The condition under which one iteration reaches a *successful*
download: every gate of `decideItem` passes and the oracle reports the
streaming GET completes.  Reads only the history table and the
filesystem. -/
def wouldDownload (cfg : FeedCfg) (h : HistTable) (fs : List String)
    (item : Entry) : Bool :=
  (cfg.whitelist.isEmpty || cfg.whitelist.any fun p => p item.title) &&
  !(History.get h cfg.name item.title).isSome &&
  (match findEnclosure item.links with
   | none => false
   | some item_link =>
     !fs.contains (itemFilePath cfg item item_link) &&
     cfg.downloadOk item_link.href)

/-- Embeds `re.compile("^" + lit).match(s)` for a literal pattern body:
`re.match` anchors at position 0 and need not consume the whole string, so
for a `^`-prefixed literal pattern it succeeds exactly when the literal is
a prefix of the string. -/
def matchCaretLiteral (lit : String) (s : String) : Bool :=
  lit.data.isPrefixOf s.data

/-! ## Concrete scenario used for the whitelist example -/

/-- The empty world: fresh history table, no files on disk, counters zero. -/
def state0 : RunState := ⟨[], [], 0, [], [], []⟩

/-- An enclosure link with mime type `audio/mpeg`. -/
def mp3Link (u : String) : Link := { rel := "enclosure", href := u, type := "audio/mpeg" }

/-- A feed configured with whitelist `["^Episode"]`, identity normalization
and an always-succeeding network. -/
def episodeCfg : FeedCfg :=
  { name := "pod", output := "/out",
    whitelist := [matchCaretLiteral "Episode"],
    nfkd := id, downloadOk := fun _ => true }

/-- Entries titled "Episode 1", "Trailer", "Episode 2", each with one
enclosure. -/
def episodeItems : List Entry :=
  [ { title := "Episode 1", links := [mp3Link "http://x/1"] },
    { title := "Trailer", links := [mp3Link "http://x/t"] },
    { title := "Episode 2", links := [mp3Link "http://x/2"] } ]



/-! ## Lemmas about `sanitize_filename` (claim C3) -/

theorem isPySpace_space : isPySpace ' ' = true := rfl

theorem option_all_some (p : Char → Bool) (a : Char) :
    Option.all p (some a) = p a := rfl

theorem getLast?_one (c : Char) : ([c] : List Char).getLast? = some c := rfl

theorem mem_dropTrailingWs {c : Char} : ∀ {l : List Char}, c ∈ dropTrailingWs l → c ∈ l := by
  intro l
  induction l with
  | nil => simp [dropTrailingWs]
  | cons a t ih =>
    simp only [dropTrailingWs]
    split
    · intro h; simp at h
    · intro h
      rcases List.mem_cons.mp h with h | h
      · exact h ▸ List.mem_cons_self a t
      · exact List.mem_cons_of_mem a (ih h)

theorem mem_stripWs {c : Char} {l : List Char} (h : c ∈ stripWs l) : c ∈ l :=
  (List.dropWhile_sublist isPySpace).subset (mem_dropTrailingWs h)

theorem collapseWs_cons (b : Char) (rest : List Char) :
    ∃ t, collapseWs (b :: rest) = (if isPySpace b then ' ' else b) :: t := by
  induction rest generalizing b with
  | nil => exact ⟨[], rfl⟩
  | cons d t ih =>
    by_cases h : (isPySpace b && isPySpace d) = true
    · obtain ⟨t', ht'⟩ := ih d
      refine ⟨t', ?_⟩
      rw [collapseWs, if_pos h, ht']
      have hb : isPySpace b = true := ((Bool.and_eq_true _ _).mp h).1
      have hd : isPySpace d = true := ((Bool.and_eq_true _ _).mp h).2
      rw [hb, hd]
      simp
    · exact ⟨collapseWs (d :: t), by rw [collapseWs, if_neg h]⟩

theorem mem_collapseWs {c : Char} : ∀ {l : List Char}, c ∈ collapseWs l →
    c = ' ' ∨ (c ∈ l ∧ isPySpace c = false) := by
  intro l
  induction l using collapseWs.induct with
  | case1 => simp [collapseWs]
  | case2 d =>
    intro h
    simp only [collapseWs, List.mem_singleton] at h
    by_cases hd : isPySpace d = true
    · left; rw [h, if_pos hd]
    · right
      rw [if_neg hd] at h
      rw [h]
      exact ⟨List.mem_singleton.mpr rfl, Bool.of_not_eq_true hd⟩
  | case3 a b rest h ih =>
    intro hm
    rw [collapseWs, if_pos h] at hm
    rcases ih hm with h1 | ⟨h2, h3⟩
    · exact Or.inl h1
    · exact Or.inr ⟨List.mem_cons_of_mem a h2, h3⟩
  | case4 a b rest h ih =>
    intro hm
    rw [collapseWs, if_neg h] at hm
    rcases List.mem_cons.mp hm with h1 | h1
    · by_cases ha : isPySpace a = true
      · left; rw [h1, if_pos ha]
      · right
        rw [if_neg ha] at h1
        rw [h1]
        exact ⟨List.mem_cons_self _ _, Bool.of_not_eq_true ha⟩
    · rcases ih h1 with h2 | ⟨h2, h3⟩
      · exact Or.inl h2
      · exact Or.inr ⟨List.mem_cons_of_mem a h2, h3⟩

theorem noTwoSpaces_collapseWs : ∀ l, noTwoSpaces (collapseWs l) = true := by
  intro l
  induction l using collapseWs.induct with
  | case1 => rfl
  | case2 c => by_cases h : isPySpace c = true <;> simp [collapseWs, noTwoSpaces, h]
  | case3 a b rest h ih => rw [collapseWs, if_pos h]; exact ih
  | case4 a b rest h ih =>
    rw [collapseWs, if_neg h]
    obtain ⟨t, ht⟩ := collapseWs_cons b rest
    rw [ht]
    rw [ht] at ih
    have hab : (isPySpace a && isPySpace b) = false := Bool.of_not_eq_true h
    have ha' : isPySpace (if isPySpace a then ' ' else a) = isPySpace a := by
      by_cases ha : isPySpace a = true <;> simp [ha, isPySpace_space]
    have hb' : isPySpace (if isPySpace b then ' ' else b) = isPySpace b := by
      by_cases hb : isPySpace b = true <;> simp [hb, isPySpace_space]
    rw [noTwoSpaces, ha', hb', hab]
    simpa using ih

theorem head?_dropWhile (p : Char → Bool) (l : List Char) :
    (l.dropWhile p).head?.all (fun c => !p c) = true := by
  induction l with
  | nil => rfl
  | cons c t ih => by_cases h : p c <;> simp [List.dropWhile, h, ih]

theorem head?_dropTrailingWs {l : List Char} {c : Char}
    (h : (dropTrailingWs l).head? = some c) : l.head? = some c := by
  cases l with
  | nil => simp [dropTrailingWs] at h
  | cons a t =>
    simp only [dropTrailingWs] at h
    split at h
    · simp at h
    · simp at h ⊢
      simpa using h

theorem head?_stripWs (l : List Char) :
    (stripWs l).head?.all (fun c => !isPySpace c) = true := by
  cases hh : (stripWs l).head? with
  | none => rfl
  | some c =>
    have h2 : (l.dropWhile isPySpace).head? = some c := head?_dropTrailingWs hh
    have h3 := head?_dropWhile isPySpace l
    rw [h2] at h3
    simpa using h3

theorem getLast?_dropTrailingWs : ∀ (l : List Char),
    (dropTrailingWs l).getLast?.all (fun c => !isPySpace c) = true := by
  intro l
  induction l with
  | nil => rfl
  | cons a t ih =>
    simp only [dropTrailingWs]
    split
    · rfl
    · rename_i hcond
      cases hdt : dropTrailingWs t with
      | nil =>
        have ha : isPySpace a = false := by
          by_cases h : isPySpace a = true
          · exact absurd (by simp [h, hdt]) hcond
          · exact Bool.of_not_eq_true h
        rw [getLast?_one, option_all_some, ha]
        rfl
      | cons x xs =>
        rw [List.getLast?_cons_cons]
        rw [hdt] at ih
        exact ih

theorem head?_collapseWs {l : List Char}
    (h : l.head?.all (fun c => !isPySpace c) = true) :
    (collapseWs l).head?.all (fun c => !isPySpace c) = true := by
  cases l with
  | nil => rfl
  | cons b rest =>
    rw [List.head?_cons, option_all_some] at h
    have hb : isPySpace b = false := by simpa using h
    obtain ⟨t, ht⟩ := collapseWs_cons b rest
    have hif : (if isPySpace b = true then ' ' else b) = b := if_neg (by simp [hb])
    rw [ht, hif, List.head?_cons, option_all_some, hb]
    rfl

theorem getLast?_collapseWs : ∀ (l : List Char),
    l.getLast?.all (fun c => !isPySpace c) = true →
    (collapseWs l).getLast?.all (fun c => !isPySpace c) = true := by
  intro l
  induction l using collapseWs.induct with
  | case1 => intro _; rfl
  | case2 c =>
    intro h
    rw [getLast?_one, option_all_some] at h
    have hc : isPySpace c = false := by simpa using h
    have hif : (if isPySpace c = true then ' ' else c) = c := if_neg (by simp [hc])
    rw [collapseWs, hif, getLast?_one, option_all_some, hc]
    rfl
  | case3 a b rest h ih =>
    intro hl
    rw [List.getLast?_cons_cons] at hl
    rw [collapseWs, if_pos h]
    exact ih hl
  | case4 a b rest h ih =>
    intro hl
    rw [List.getLast?_cons_cons] at hl
    rw [collapseWs, if_neg h]
    obtain ⟨t, ht⟩ := collapseWs_cons b rest
    rw [ht, List.getLast?_cons_cons, ← ht]
    exact ih hl


/-- C3 (counterexample): the claim is false as stated — `sanitize_filename`
keeps underscores (Python's `\w` is `[a-zA-Z0-9_]`), so the title `"a_b"`
sanitizes to `"a_b"`, which contains a character that is neither an ASCII
alphanumeric, nor a space, nor a hyphen. -/
theorem c3_sanitize_counterexample :
    sanitize_filename id "a_b" = "a_b" ∧
    '_' ∈ (sanitize_filename id "a_b").data ∧
    ('_'.isAlphanum = false ∧ '_' ≠ ' ' ∧ '_' ≠ '-') := by
  decide

/-- C3 (amended): for every normalization function and every input title,
`sanitize_filename` returns a string containing only ASCII alphanumerics,
underscores, single spaces, and hyphens, with no leading or trailing
whitespace. -/
theorem c3_sanitize_amended (nfkd : List Char → List Char) (value : String) :
    ((sanitize_filename nfkd value).data.all
      (fun c => c.isAlphanum || c == '_' || c == ' ' || c == '-')) = true ∧
    noTwoSpaces (sanitize_filename nfkd value).data = true ∧
    (sanitize_filename nfkd value).data.head?.all (fun c => !isPySpace c) = true ∧
    (sanitize_filename nfkd value).data.getLast?.all (fun c => !isPySpace c) = true := by
  have hdata : (sanitize_filename nfkd value).data =
      collapseWs (stripWs (((nfkd value.data).filter (fun c => c.toNat ≤ 127)).filter
        (fun c => isPyWord c || isPySpace c || c == '-'))) := rfl
  rw [hdata]
  set kept := ((nfkd value.data).filter (fun c => c.toNat ≤ 127)).filter
    (fun c => isPyWord c || isPySpace c || c == '-') with hkept
  refine ⟨?_, noTwoSpaces_collapseWs _, ?_, getLast?_collapseWs _ (getLast?_dropTrailingWs _)⟩
  · rw [List.all_eq_true]
    intro c hc
    rcases mem_collapseWs hc with h | ⟨hmem, hnsp⟩
    · rw [h]; rfl
    · have hk : (isPyWord c || isPySpace c || c == '-') = true :=
        (List.mem_filter.mp (mem_stripWs hmem)).2
      rw [hnsp] at hk
      simp only [Bool.or_false, Bool.false_or] at hk
      rcases Bool.or_eq_true_iff.mp hk with h1 | h1
      · rw [isPyWord] at h1
        rcases Bool.or_eq_true_iff.mp h1 with h2 | h2
        · simp [h2]
        · simp [h2]
      · simp [h1]
  · exact head?_collapseWs (head?_stripWs _)


/-- `History.get` on an appended table: a match in the earlier rows wins,
otherwise the scan continues into the appended rows. -/
theorem History.get_append (h l : HistTable) (f t : String) :
    History.get (h ++ l) f t =
      match History.get h f t with
      | some d => some d
      | none => History.get l f t := by
  induction h with
  | nil => rfl
  | cons r rest ih =>
    by_cases hr : r.feed = f ∧ r.title = t
    · simp [History.get, hr]
    · simp [History.get, hr, ih]

/-- After `store`, a lookup for the stored (feed, title) pair succeeds. -/
theorem History.get_store_isSome (h : HistTable) (now : Nat) (f u t : String) :
    (History.get (History.store h now f u t) f t).isSome = true := by
  rw [History.store, History.get_append]
  cases hg : History.get h f t with
  | some d => rfl
  | none => simp [History.get]

/-- A lookup succeeds exactly when some row matches both fields (exact,
case-sensitive string equality). -/
theorem History.get_isSome_iff_any (h : HistTable) (f t : String) :
    (History.get h f t).isSome = h.any (fun r => r.feed == f && r.title == t) := by
  induction h with
  | nil => rfl
  | cons r rest ih =>
    rw [List.any_cons]
    by_cases hr : r.feed = f ∧ r.title = t
    · rw [History.get, if_pos hr]
      simp [hr.1, hr.2]
    · rw [History.get, if_neg hr]
      have hb : (r.feed == f && r.title == t) = false := by
        rw [Bool.and_eq_false_iff]
        by_cases h1 : r.feed = f
        · exact Or.inr (by simpa [beq_iff_eq] using fun h2 => hr ⟨h1, h2⟩)
        · exact Or.inl (by simpa [beq_iff_eq] using h1)
      rw [hb, Bool.false_or]
      exact ih

/-- When a lookup returns a date, it is the date of the first matching row
in insertion (rowid) order. -/
theorem History.get_first (h : HistTable) (f t : String) (d : Nat)
    (hg : History.get h f t = some d) :
    ∃ i, ∃ hi : i < h.length,
      (h.get ⟨i, hi⟩).feed = f ∧ (h.get ⟨i, hi⟩).title = t ∧
      (h.get ⟨i, hi⟩).date = d ∧
      ∀ j, (hj : j < h.length) → j < i →
        ¬((h.get ⟨j, hj⟩).feed = f ∧ (h.get ⟨j, hj⟩).title = t) := by
  induction h with
  | nil => exact absurd hg (by simp [History.get])
  | cons r rest ih =>
    by_cases hr : r.feed = f ∧ r.title = t
    · rw [History.get, if_pos hr] at hg
      refine ⟨0, Nat.succ_pos _, hr.1, hr.2, Option.some.inj hg, ?_⟩
      intro j hj hj0
      exact absurd hj0 (Nat.not_lt_zero j)
    · rw [History.get, if_neg hr] at hg
      obtain ⟨i, hi, h1, h2, h3, h4⟩ := ih hg
      refine ⟨i + 1, Nat.succ_lt_succ hi, h1, h2, h3, ?_⟩
      intro j hj hji
      cases j with
      | zero => exact hr
      | succ k =>
        exact h4 k (Nat.lt_of_succ_lt_succ hj) (Nat.lt_of_succ_lt_succ hji)

/-- When no row matches, the lookup returns `none`. -/
theorem History.get_none_of_all (h : HistTable) (f t : String)
    (ha : h.all (fun r => !(r.feed == f && r.title == t)) = true) :
    History.get h f t = none := by
  induction h with
  | nil => rfl
  | cons r rest ih =>
    rw [List.all_cons, Bool.and_eq_true] at ha
    rw [History.get, if_neg ?_]
    · exact ih ha.2
    · intro hc
      have hb := ha.1
      simp [hc.1, hc.2] at hb

/-- C4 (counterexample): with two records for the same (feed, title) pair —
dates 1 then 2 — the lookup returns the *first-inserted* date 1, not the
most recent date 2, because the `SELECT` has no `ORDER BY` and `fetchone()`
takes the first row of the scan. -/
theorem c4_history_counterexample :
    History.get (History.store (History.store [] 1 "f" "u" "t") 2 "f" "u" "t") "f" "t"
      = some 1 ∧
    History.get (History.store (History.store [] 1 "f" "u" "t") 2 "f" "u" "t") "f" "t"
      ≠ some 2 := by
  decide

/-- C4 (amended): for every store state and (feed, title) pair, the lookup
returns the date of the *first-recorded* matching row (exact, case-sensitive
string equality on both fields) when at least one record for the pair
exists — in particular directly after a `store` of that pair — and returns
none when no record for the pair was ever stored. -/
theorem c4_history_amended (h : HistTable) (f t u : String) (now d : Nat) :
    ((History.get h f t).isSome = h.any (fun r => r.feed == f && r.title == t)) ∧
    ((History.get (History.store h now f u t) f t).isSome = true) ∧
    (History.get h f t = some d →
      ∃ i, ∃ hi : i < h.length,
        (h.get ⟨i, hi⟩).feed = f ∧ (h.get ⟨i, hi⟩).title = t ∧
        (h.get ⟨i, hi⟩).date = d ∧
        ∀ j, (hj : j < h.length) → j < i →
          ¬((h.get ⟨j, hj⟩).feed = f ∧ (h.get ⟨j, hj⟩).title = t)) ∧
    (h.all (fun r => !(r.feed == f && r.title == t)) = true →
      History.get h f t = none) :=
  ⟨History.get_isSome_iff_any h f t,
   History.get_store_isSome h now f u t,
   History.get_first h f t d,
   History.get_none_of_all h f t⟩

/-- C4 (witness): the amended theorem applied at a concrete store. -/
theorem c4_history_amended_witness :
    History.get ([⟨5, "f", "u", "t"⟩] : HistTable) "g" "t" = none :=
  (c4_history_amended [⟨5, "f", "u", "t"⟩] "g" "t" "u" 0 0).2.2.2 (by decide)



/-! ## Lemmas about the per-item pipeline (claims C5-C9) -/

theorem bool_or_of_not_and {a b : Bool} (h : (!a && !b) = false) :
    (a || b) = true := by
  cases a <;> cases b <;> simp_all

/-- A successful lookup survives appending rows to the table. -/
theorem History.get_isSome_append {h : HistTable} {f t : String} (l : HistTable)
    (hs : (History.get h f t).isSome = true) :
    (History.get (h ++ l) f t).isSome = true := by
  rw [History.get_append]
  cases hg : History.get h f t with
  | some d => rfl
  | none => rw [hg] at hs; exact absurd hs (by simp)

/-- `processItem` only ever appends to the history table. -/
theorem processItem_history (cfg : FeedCfg) (now : Nat) (st : RunState)
    (item : Entry) :
    ∃ l, (processItem cfg now st item).history = st.history ++ l := by
  rw [processItem]
  cases decideItem cfg st item with
  | download l fp ct => exact ⟨_, rfl⟩
  | skipWhitelist => exact ⟨[], (List.append_nil _).symm⟩
  | skipHistory => exact ⟨[], (List.append_nil _).symm⟩
  | skipNoUrl ct => exact ⟨[], (List.append_nil _).symm⟩
  | skipExists fp => exact ⟨[], (List.append_nil _).symm⟩
  | failed l fp ct => exact ⟨[], (List.append_nil _).symm⟩

/-- `processItem` never removes a file from the filesystem. -/
theorem processItem_fs (cfg : FeedCfg) (now : Nat) (st : RunState)
    (item : Entry) {x : String} (hx : x ∈ st.fs) :
    x ∈ (processItem cfg now st item).fs := by
  rw [processItem]
  cases decideItem cfg st item with
  | download l fp ct => exact List.mem_cons_of_mem _ hx
  | skipWhitelist => exact hx
  | skipHistory => exact hx
  | skipNoUrl ct => exact hx
  | skipExists fp => exact hx
  | failed l fp ct => exact hx

/-- A whole run only ever appends to the history table. -/
theorem foldl_history (cfg : FeedCfg) (now : Nat) :
    ∀ (l : List Entry) (st : RunState),
    ∃ hl, (l.foldl (processItem cfg now) st).history = st.history ++ hl := by
  intro l
  induction l with
  | nil => exact fun st => ⟨[], (List.append_nil _).symm⟩
  | cons i rest ih =>
    intro st
    obtain ⟨l1, h1⟩ := processItem_history cfg now st i
    obtain ⟨l2, h2⟩ := ih (processItem cfg now st i)
    exact ⟨l1 ++ l2, by rw [List.foldl_cons, h2, h1, List.append_assoc]⟩

/-- A whole run never removes a file from the filesystem. -/
theorem foldl_fs (cfg : FeedCfg) (now : Nat) :
    ∀ (l : List Entry) (st : RunState) {x : String}, x ∈ st.fs →
    x ∈ (l.foldl (processItem cfg now) st).fs := by
  intro l
  induction l with
  | nil => exact fun st _ hx => hx
  | cons i rest ih =>
    intro st x hx
    exact ih (processItem cfg now st i) (processItem_fs cfg now st i hx)

/-- If every gate passes and the oracle reports success, the iteration
decides to download. -/
theorem decideItem_download_of_wouldDownload (cfg : FeedCfg) (st : RunState)
    (item : Entry)
    (hw : wouldDownload cfg st.history st.fs item = true) :
    ∃ il, findEnclosure item.links = some il ∧
      decideItem cfg st item =
        Decision.download il (itemFilePath cfg item il)
          (sanitize_filename cfg.nfkd item.title) := by
  rw [wouldDownload] at hw
  rw [Bool.and_eq_true, Bool.and_eq_true] at hw
  obtain ⟨⟨h1, h2⟩, h3⟩ := hw
  cases hfe : findEnclosure item.links with
  | none => rw [hfe] at h3; exact absurd h3 (by simp)
  | some il =>
    rw [hfe] at h3
    rw [Bool.and_eq_true] at h3
    obtain ⟨h4, h5⟩ := h3
    refine ⟨il, rfl, ?_⟩
    rw [decideItem]
    have hgate : (!cfg.whitelist.isEmpty &&
        !(cfg.whitelist.any fun p => p item.title)) = false := by
      rcases Bool.or_eq_true_iff.mp h1 with h | h
      · rw [h]; rfl
      · rw [h]; simp
    rw [hgate]
    have h2' : (History.get st.history cfg.name item.title).isSome = false := by
      simpa using h2
    rw [h2', hfe]
    have h4' : itemFilePath cfg item il ∉ st.fs := by
      simpa using h4
    simp [h4', h5]

/-- If the iteration decides to download, every gate passed and the oracle
reported success. -/
theorem wouldDownload_of_decideItem_download (cfg : FeedCfg) (st : RunState)
    (item : Entry) (il : Link) (fp ct : String)
    (hd : decideItem cfg st item = Decision.download il fp ct) :
    wouldDownload cfg st.history st.fs item = true := by
  rw [decideItem] at hd
  rw [wouldDownload]
  split at hd
  · exact absurd hd (by simp)
  · rename_i hgate
    split at hd
    · exact absurd hd (by simp)
    · rename_i hsome
      split at hd
      · exact absurd hd (by simp)
      · rename_i il' hfe
        split at hd
        · exact absurd hd (by simp)
        · rename_i hcontains
          split at hd
          · rename_i hok
            have h1 := bool_or_of_not_and (Bool.of_not_eq_true hgate)
            have hs : (History.get st.history cfg.name item.title).isSome
                = false := by
              simpa using hsome
            have hc : st.fs.contains (itemFilePath cfg item il') = false := by
              simpa using hcontains
            rw [h1, hs, hc, hok]
            rfl
          · exact absurd hd (by simp)

/-- A failed lookup on an appended table means the lookup already failed on
the original table. -/
theorem History.get_none_of_append_none {h l : HistTable} {f t : String}
    (hn : History.get (h ++ l) f t = none) : History.get h f t = none := by
  rw [History.get_append] at hn
  cases hg : History.get h f t with
  | some d => rw [hg] at hn; exact absurd hn (by simp)
  | none => rfl

/-- When a lookup already succeeds, the download gate fails. -/
theorem wouldDownload_false_of_isSome (cfg : FeedCfg) (h : HistTable)
    (fs : List String) (item : Entry)
    (hs : (History.get h cfg.name item.title).isSome = true) :
    wouldDownload cfg h fs item = false := by
  rw [wouldDownload, hs]
  simp

/-- The download gate is antitone under growth of the history table and the
filesystem: if it still holds after a run appended records and files, it
held before. -/
theorem wouldDownload_true_mono_rev (cfg : FeedCfg) (h hl : HistTable)
    (fs fs' : List String) (item : Entry)
    (hfs : ∀ x ∈ fs, x ∈ fs')
    (hw : wouldDownload cfg (h ++ hl) fs' item = true) :
    wouldDownload cfg h fs item = true := by
  rw [wouldDownload] at hw ⊢
  rw [Bool.and_eq_true, Bool.and_eq_true] at hw
  obtain ⟨⟨h1, h2⟩, h3⟩ := hw
  rw [h1]
  have h2' : History.get (h ++ hl) cfg.name item.title = none := by
    cases hg : History.get (h ++ hl) cfg.name item.title with
    | none => rfl
    | some d => rw [hg] at h2; exact absurd h2 (by simp)
  rw [History.get_none_of_append_none h2']
  cases hfe : findEnclosure item.links with
  | none => rw [hfe] at h3; exact absurd h3 (by simp)
  | some il =>
    rw [hfe] at h3
    rw [Bool.and_eq_true] at h3
    obtain ⟨h4, h5⟩ := h3
    have hmem : itemFilePath cfg item il ∉ fs' := by simpa using h4
    have h4' : fs.contains (itemFilePath cfg item il) = false := by
      by_cases hx : fs.contains (itemFilePath cfg item il) = true
      · exact absurd (hfs _ (by simpa using hx)) hmem
      · exact Bool.of_not_eq_true hx
    have h4'' : itemFilePath cfg item il ∉ fs := by simpa using h4'
    simp [h4'', h5]

/-- If no download decision is possible, the gate fails. -/
theorem wouldDownload_false_of_not_download (cfg : FeedCfg) (st : RunState)
    (item : Entry)
    (hnd : ∀ il fp ct, decideItem cfg st item ≠ Decision.download il fp ct) :
    wouldDownload cfg st.history st.fs item = false := by
  by_cases hw : wouldDownload cfg st.history st.fs item = true
  · obtain ⟨il, _, hdl⟩ := decideItem_download_of_wouldDownload cfg st item hw
    exact absurd hdl (hnd il _ _)
  · exact Bool.of_not_eq_true hw

/-- After one iteration, either the download gate provably failed and the
history table and filesystem are untouched, or the processed entry's
(feed, title) pair is now recorded in the history table. -/
theorem processItem_settles (cfg : FeedCfg) (now : Nat) (st : RunState)
    (item : Entry) :
    (wouldDownload cfg st.history st.fs item = false ∧
      (processItem cfg now st item).history = st.history ∧
      (processItem cfg now st item).fs = st.fs) ∨
    (History.get (processItem cfg now st item).history
      cfg.name item.title).isSome = true := by
  cases hd : decideItem cfg st item with
  | download il fp ct =>
    right
    have hh : (processItem cfg now st item).history =
        History.store st.history now cfg.name il.href item.title := by
      rw [processItem, hd]
      rfl
    rw [hh]
    exact History.get_store_isSome st.history now cfg.name il.href item.title
  | skipWhitelist =>
    left
    refine ⟨wouldDownload_false_of_not_download cfg st item ?_, ?_, ?_⟩
    · intro il fp ct hc; rw [hd] at hc; exact absurd hc (by simp)
    · rw [processItem, hd]; rfl
    · rw [processItem, hd]; rfl
  | skipHistory =>
    left
    refine ⟨wouldDownload_false_of_not_download cfg st item ?_, ?_, ?_⟩
    · intro il fp ct hc; rw [hd] at hc; exact absurd hc (by simp)
    · rw [processItem, hd]; rfl
    · rw [processItem, hd]; rfl
  | skipNoUrl ct =>
    left
    refine ⟨wouldDownload_false_of_not_download cfg st item ?_, ?_, ?_⟩
    · intro il fp ct' hc; rw [hd] at hc; exact absurd hc (by simp)
    · rw [processItem, hd]; rfl
    · rw [processItem, hd]; rfl
  | skipExists fp =>
    left
    refine ⟨wouldDownload_false_of_not_download cfg st item ?_, ?_, ?_⟩
    · intro il fp' ct hc; rw [hd] at hc; exact absurd hc (by simp)
    · rw [processItem, hd]; rfl
    · rw [processItem, hd]; rfl
  | failed il fp ct =>
    left
    refine ⟨wouldDownload_false_of_not_download cfg st item ?_, ?_, ?_⟩
    · intro il' fp' ct' hc; rw [hd] at hc; exact absurd hc (by simp)
    · rw [processItem, hd]; rfl
    · rw [processItem, hd]; rfl

/-- After a full run, no entry of the processed list can still pass the
download gate at the final state. -/
theorem wouldDownload_false_after_foldl (cfg : FeedCfg) (now : Nat) :
    ∀ (l : List Entry) (st : RunState) (item : Entry), item ∈ l →
    wouldDownload cfg (l.foldl (processItem cfg now) st).history
      (l.foldl (processItem cfg now) st).fs item = false := by
  intro l
  induction l with
  | nil => intro st item h; exact absurd h (List.not_mem_nil item)
  | cons i rest ih =>
    intro st item hmem
    rw [List.foldl_cons]
    rcases List.mem_cons.mp hmem with heq | hmem2
    · subst heq
      rcases processItem_settles cfg now st item with ⟨hwf, hh, hf⟩ | hsome
      · by_cases hw : wouldDownload cfg
            (rest.foldl (processItem cfg now) (processItem cfg now st item)).history
            (rest.foldl (processItem cfg now) (processItem cfg now st item)).fs
            item = true
        · exfalso
          obtain ⟨hl, hhl⟩ := foldl_history cfg now rest (processItem cfg now st item)
          rw [hhl] at hw
          have hmono := wouldDownload_true_mono_rev cfg
            (processItem cfg now st item).history hl
            (processItem cfg now st item).fs
            (rest.foldl (processItem cfg now) (processItem cfg now st item)).fs
            item (fun x hx => foldl_fs cfg now rest _ hx) hw
          rw [hh, hf, hwf] at hmono
          exact absurd hmono (by simp)
        · exact Bool.of_not_eq_true hw
      · obtain ⟨hl, hhl⟩ := foldl_history cfg now rest (processItem cfg now st item)
        refine wouldDownload_false_of_isSome cfg _ _ item ?_
        rw [hhl]
        exact History.get_isSome_append hl hsome
    · exact ih (processItem cfg now st i) item hmem2

/-- A run in which every entry fails the download gate at the starting
history/filesystem leaves history, filesystem, download counter and yield
list untouched (only warning and attempt logs may grow). -/
theorem foldl_frozen (cfg : FeedCfg) (now : Nat) :
    ∀ (l : List Entry) (st : RunState),
    (∀ item ∈ l, wouldDownload cfg st.history st.fs item = false) →
    ((l.foldl (processItem cfg now) st).history = st.history ∧
     (l.foldl (processItem cfg now) st).fs = st.fs ∧
     (l.foldl (processItem cfg now) st).downloads = st.downloads ∧
     (l.foldl (processItem cfg now) st).yielded = st.yielded) := by
  intro l
  induction l with
  | nil => exact fun st _ => ⟨rfl, rfl, rfl, rfl⟩
  | cons i rest ih =>
    intro st hall
    rw [List.foldl_cons]
    have hwi := hall i (List.mem_cons_self i rest)
    have hstep : (processItem cfg now st i).history = st.history ∧
        (processItem cfg now st i).fs = st.fs ∧
        (processItem cfg now st i).downloads = st.downloads ∧
        (processItem cfg now st i).yielded = st.yielded := by
      cases hd : decideItem cfg st i with
      | download il fp ct =>
        exact absurd (wouldDownload_of_decideItem_download cfg st i il fp ct hd)
          (by rw [hwi]; simp)
      | skipWhitelist => rw [processItem, hd]; exact ⟨rfl, rfl, rfl, rfl⟩
      | skipHistory => rw [processItem, hd]; exact ⟨rfl, rfl, rfl, rfl⟩
      | skipNoUrl ct => rw [processItem, hd]; exact ⟨rfl, rfl, rfl, rfl⟩
      | skipExists fp => rw [processItem, hd]; exact ⟨rfl, rfl, rfl, rfl⟩
      | failed il fp ct => rw [processItem, hd]; exact ⟨rfl, rfl, rfl, rfl⟩
    obtain ⟨hh, hf, hdl, hy⟩ := hstep
    obtain ⟨a, b, c, d⟩ := ih (processItem cfg now st i) (by
      intro item hmem
      rw [hh, hf]
      exact hall item (List.mem_cons_of_mem i hmem))
    exact ⟨by rw [a, hh], by rw [b, hf], by rw [c, hdl], by rw [d, hy]⟩

/-- C5: running the per-feed pipeline twice in succession against an
unchanged feed — the second run starts from the first run's history table
and filesystem, with a fresh per-feed download counter as set by
`Feed.__init__` — produces zero completed downloads, yields nothing to the
run loop, and adds no history record and no file.  (Entries whose download
failed on the first run are attempted again — the source deliberately
retries them — but against the unchanged environment they fail again, so
nothing new is downloaded or recorded.) -/
theorem c5_second_run_inert (cfg : FeedCfg) (now1 now2 : Nat)
    (items : List Entry) (h0 : HistTable) (fs0 : List String) :
    let st1 := get_all cfg now1 items
      { history := h0, fs := fs0, downloads := 0, yielded := [],
        warnings := [], attempts := [] }
    let st2 := get_all cfg now2 items
      { history := st1.history, fs := st1.fs, downloads := 0, yielded := [],
        warnings := [], attempts := [] }
    st2.downloads = 0 ∧ st2.yielded = [] ∧
    st2.history = st1.history ∧ st2.fs = st1.fs := by
  intro st1 st2
  have hall : ∀ item ∈ items.reverse,
      wouldDownload cfg st1.history st1.fs item = false := by
    intro item hmem
    exact wouldDownload_false_after_foldl cfg now1 items.reverse _ item hmem
  obtain ⟨hh, hf, hdl, hy⟩ := foldl_frozen cfg now2 items.reverse
    { history := st1.history, fs := st1.fs, downloads := 0, yielded := [],
      warnings := [], attempts := [] } hall
  exact ⟨hdl, hy, hh, hf⟩



/-! ## Claim theorems C1, C2, C6-C10 -/

/-- C1: `History.__init__` computes the sqlite path from the constant
`DEFAULT_HISTORY_FILE`, ignoring its `file_path` argument entirely: opening
with path `/tmp/a.db` (HOME `/home/u`) opens `/home/u/.tzfeedreader.db`,
and two opens with different paths open the very same store. -/
theorem c1_open_ignores_path :
    History.openedPath "/home/u" "/tmp/a.db" = "/home/u/.tzfeedreader.db" ∧
    History.openedPath "/home/u" "/tmp/b.db" =
      History.openedPath "/home/u" "/tmp/a.db" ∧
    "/tmp/a.db" ≠ "/tmp/b.db" := by
  decide

/-- C2: with auth configured as the string `"user:pass"`, `Feed.__init__`
computes `":".split(auth)` — splitting the literal `":"` with the
credentials as separator — which yields `[":"]`, not the intended
`"user:pass".split(":") = ["user", "pass"]`; the issued GET therefore does
not carry the configured user and password (it does carry the fixed
user-agent header). -/
theorem c2_basic_auth_mis_split :
    (updateRequestArgs ⟨none, none⟩ (AuthConfig.str "user:pass")).auth
      = some [":"] ∧
    pySplit "user:pass" ":" = ["user", "pass"] ∧
    some [":"] ≠ some ["user", "pass"] ∧
    (mkRequest "http://example.com/feed"
      (updateRequestArgs ⟨none, none⟩ (AuthConfig.str "user:pass"))).auth
      = some [":"] ∧
    (mkRequest "http://example.com/feed"
      (updateRequestArgs ⟨none, none⟩ (AuthConfig.str "user:pass"))).headers
      = [("User-agent", "TzFeedReader")] := by
  decide

/-- C6: for every entry whose download attempt fails, the iteration logs a
warning and moves on to the next entry: history table, filesystem,
download counter and yield list are all unchanged — in particular no
history record is added for the (feed, title) pair, so the item is
reconsidered on the next run. -/
theorem c6_download_failure_skips (cfg : FeedCfg) (now : Nat) (st : RunState)
    (item : Entry) (il : Link) (fp ct : String)
    (hd : decideItem cfg st item = Decision.failed il fp ct) :
    (processItem cfg now st item).history = st.history ∧
    (processItem cfg now st item).fs = st.fs ∧
    (processItem cfg now st item).downloads = st.downloads ∧
    (processItem cfg now st item).yielded = st.yielded ∧
    (processItem cfg now st item).warnings =
      st.warnings ++ [LogWarning.downloadFailed] := by
  rw [processItem, hd]
  exact ⟨rfl, rfl, rfl, rfl, rfl⟩

/-- C6 (witness): a concrete entry whose streaming GET fails. -/
theorem c6_download_failure_skips_witness :
    (processItem ⟨"pod", "/out", [], id, fun _ => false⟩ 0 state0
      ⟨"Ep", [mp3Link "http://u"]⟩).history = state0.history :=
  (c6_download_failure_skips ⟨"pod", "/out", [], id, fun _ => false⟩ 0 state0
    ⟨"Ep", [mp3Link "http://u"]⟩ (mp3Link "http://u") "/out/Ep.mpeg" "Ep"
    (by decide)).1

/-- C7: when the derived output path already exists on disk, the entry is
skipped even though it is absent from the history store: the iteration
decides `skipExists` and the run state — including the list of URLs an
HTTP GET was issued for, the filesystem and the history table — is exactly
unchanged. -/
theorem c7_existing_path_skips (cfg : FeedCfg) (now : Nat) (st : RunState)
    (item : Entry) (il : Link)
    (hw : (cfg.whitelist.isEmpty || cfg.whitelist.any fun p => p item.title)
      = true)
    (hh : History.get st.history cfg.name item.title = none)
    (he : findEnclosure item.links = some il)
    (hf : st.fs.contains (itemFilePath cfg item il) = true) :
    decideItem cfg st item = Decision.skipExists (itemFilePath cfg item il) ∧
    processItem cfg now st item = st := by
  have hd : decideItem cfg st item
      = Decision.skipExists (itemFilePath cfg item il) := by
    rw [decideItem]
    have hgate : (!cfg.whitelist.isEmpty &&
        !(cfg.whitelist.any fun p => p item.title)) = false := by
      rcases Bool.or_eq_true_iff.mp hw with h | h
      · rw [h]; rfl
      · rw [h]; simp
    rw [hgate, hh, he]
    have hf' : itemFilePath cfg item il ∈ st.fs := by simpa using hf
    simp [hf']
  refine ⟨hd, ?_⟩
  rw [processItem, hd]
  rfl

/-- C7 (witness): a concrete entry whose output file is already on disk. -/
theorem c7_existing_path_skips_witness :
    processItem ⟨"pod", "/out", [], id, fun _ => true⟩ 0
      { state0 with fs := ["/out/Ep.mpeg"] } ⟨"Ep", [mp3Link "http://u"]⟩ =
    { state0 with fs := ["/out/Ep.mpeg"] } :=
  (c7_existing_path_skips ⟨"pod", "/out", [], id, fun _ => true⟩ 0
    { state0 with fs := ["/out/Ep.mpeg"] } ⟨"Ep", [mp3Link "http://u"]⟩
    (mp3Link "http://u") (by decide) (by decide) (by decide) (by decide)).2

/-- C8: the selected download link is the first link, in the entry's given
order, whose relation is "enclosure" and whose href is non-empty; when no
such link exists the entry is skipped with a warning and nothing else
happens — no file is written, no history is recorded, no GET is issued. -/
theorem c8_enclosure_selection :
    (∀ links : List Link,
      findEnclosure links =
        links.find? (fun l => l.rel == "enclosure" && !(l.href == ""))) ∧
    (∀ (cfg : FeedCfg) (now : Nat) (st : RunState) (item : Entry) (ct : String),
      decideItem cfg st item = Decision.skipNoUrl ct →
      processItem cfg now st item =
        { st with warnings := st.warnings ++ [LogWarning.noValidUrls ct] }) := by
  constructor
  · intro links
    induction links with
    | nil => rfl
    | cons l rest ih =>
      rw [findEnclosure, List.find?_cons]
      by_cases hl : l.rel = "enclosure" ∧ l.href ≠ ""
      · rw [if_pos hl]
        have hb : (l.rel == "enclosure" && !(l.href == "")) = true := by
          rw [Bool.and_eq_true]
          exact ⟨beq_iff_eq.mpr hl.1, by simpa using hl.2⟩
        rw [hb]
      · rw [if_neg hl]
        have hb : (l.rel == "enclosure" && !(l.href == "")) = false := by
          by_cases h1 : l.rel = "enclosure"
          · have h2 : l.href = "" := by
              by_contra h2
              exact hl ⟨h1, h2⟩
            simp [h2]
          · simp [h1]
        rw [hb]
        exact ih
  · intro cfg now st item ct hd
    rw [processItem, hd]
    rfl

/-- C8 (witness): a concrete entry with no enclosure link. -/
theorem c8_enclosure_selection_witness :
    processItem ⟨"pod", "/out", [], id, fun _ => true⟩ 0 state0
      ⟨"Ep", [⟨"alternate", "http://u", "text/html"⟩]⟩ =
    { state0 with warnings := state0.warnings ++ [LogWarning.noValidUrls "Ep"] } :=
  c8_enclosure_selection.2 ⟨"pod", "/out", [], id, fun _ => true⟩ 0 state0
    ⟨"Ep", [⟨"alternate", "http://u", "text/html"⟩]⟩ "Ep" (by decide)

/-- C9: with a non-empty whitelist, an entry is skipped at the whitelist
gate exactly when no compiled pattern matches its raw title (prefix-
anchored `re.match`); concretely, with whitelist `["^Episode"]` and entries
"Episode 1", "Trailer", "Episode 2" over an empty history and filesystem,
exactly the two episodes are downloaded (oldest first) and "Trailer" is
not. -/
theorem c9_whitelist_gate :
    (∀ (cfg : FeedCfg) (st : RunState) (item : Entry), cfg.whitelist ≠ [] →
      (decideItem cfg st item = Decision.skipWhitelist ↔
        (cfg.whitelist.any fun p => p item.title) = false)) ∧
    ((get_all episodeCfg 0 episodeItems state0).yielded =
      ["Episode 2", "Episode 1"] ∧
     (get_all episodeCfg 0 episodeItems state0).downloads = 2 ∧
     "Trailer" ∉ (get_all episodeCfg 0 episodeItems state0).yielded) := by
  constructor
  · intro cfg st item hne
    constructor
    · intro hd
      cases hany : (cfg.whitelist.any fun p => p item.title) with
      | false => rfl
      | true =>
        exfalso
        rw [decideItem] at hd
        have hgate : (!cfg.whitelist.isEmpty &&
            !(cfg.whitelist.any fun p => p item.title)) = false := by
          rw [hany]; simp
        rw [hgate] at hd
        simp only [Bool.false_eq_true, if_false] at hd
        split at hd
        · exact absurd hd (by simp)
        · split at hd
          · exact absurd hd (by simp)
          · split at hd
            · exact absurd hd (by simp)
            · split at hd
              · exact absurd hd (by simp)
              · exact absurd hd (by simp)
    · intro hfalse
      rw [decideItem]
      have hie : cfg.whitelist.isEmpty = false := by
        cases hwl : cfg.whitelist with
        | nil => exact absurd hwl hne
        | cons a t => rfl
      have hgate : (!cfg.whitelist.isEmpty &&
          !(cfg.whitelist.any fun p => p item.title)) = true := by
        rw [hie, hfalse]
        rfl
      rw [hgate]
      rfl
  · exact ⟨by decide, by decide, by decide⟩

/-- C9 (witness): "Trailer" is skipped at the whitelist gate. -/
theorem c9_whitelist_gate_witness :
    decideItem episodeCfg state0 ⟨"Trailer", [mp3Link "http://x/t"]⟩ =
      Decision.skipWhitelist :=
  (c9_whitelist_gate.1 episodeCfg state0 ⟨"Trailer", [mp3Link "http://x/t"]⟩
    (by simp [episodeCfg])).mpr (by decide)

/-- C10: the single shared `request_args` mapping is mutated and never
replaced: constructing a feed with no auth leaves it untouched, no update
ever clears an existing `auth` or `params` entry, and after any further
sequence of no-auth feed constructions every issued request still carries
the earlier feed's settings. -/
theorem c10_shared_request_args (args : RequestArgs) (a : AuthConfig)
    (l : List AuthConfig) (url : String) :
    (updateRequestArgs args AuthConfig.noAuth = args) ∧
    (args.auth.isSome = true → (updateRequestArgs args a).auth.isSome = true) ∧
    (args.params.isSome = true →
      (updateRequestArgs args a).params.isSome = true) ∧
    ((∀ c ∈ l, c = AuthConfig.noAuth) →
      mkRequest url (l.foldl updateRequestArgs args) = mkRequest url args) := by
  refine ⟨rfl, ?_, ?_, ?_⟩
  · intro h
    cases a with
    | noAuth => exact h
    | str s => rfl
    | dict d => exact h
  · intro h
    cases a with
    | noAuth => exact h
    | str s => exact h
    | dict d => rfl
  · induction l generalizing args with
    | nil => intro _; rfl
    | cons c rest ih =>
      intro h
      rw [List.foldl_cons, h c (List.mem_cons_self c rest)]
      exact ih args (fun c' hc' => h c' (List.mem_cons_of_mem c hc'))

/-- C10 (witness): a feed with basic-auth config followed by two no-auth
feeds; the later feeds' requests still carry the first feed's auth. -/
theorem c10_shared_request_args_witness :
    (updateRequestArgs (updateRequestArgs ⟨none, none⟩
        (AuthConfig.str "user:pass")) AuthConfig.noAuth).auth.isSome = true ∧
    mkRequest "http://f" ([AuthConfig.noAuth, AuthConfig.noAuth].foldl
        updateRequestArgs
        (updateRequestArgs ⟨none, none⟩ (AuthConfig.str "user:pass"))) =
      mkRequest "http://f"
        (updateRequestArgs ⟨none, none⟩ (AuthConfig.str "user:pass")) :=
  ⟨(c10_shared_request_args (updateRequestArgs ⟨none, none⟩
      (AuthConfig.str "user:pass")) AuthConfig.noAuth [] "http://f").2.1
    (by decide),
   (c10_shared_request_args (updateRequestArgs ⟨none, none⟩
      (AuthConfig.str "user:pass")) AuthConfig.noAuth
      [AuthConfig.noAuth, AuthConfig.noAuth] "http://f").2.2.2 (by decide)⟩


end TzFeedReader
